import Mathlib

/-!
Verification of the `sort-imports` rule (src/rules/sort-imports.js) against its
specification.  The JavaScript source is shallowly embedded: source text is a
list of characters, syntax-tree nodes are records carrying the attributes the
rule reads, and every rule function is translated into an executable Lean
definition.  JavaScript's `Array.prototype.sort` (guaranteed stable since
ES2019) is modelled as a stable insertion sort; JavaScript string comparison
operators, which compare code units, are modelled by code-point comparison
(the texts involved are ASCII, where the two coincide).
-/

/-- Source text, as a list of characters. -/
abbrev Text := List Char

/-- JavaScript `<` on single characters (code-unit comparison). -/
def jsCharLt (a b : Char) : Bool := a.toNat < b.toNat

/-- JavaScript `<` on strings: lexicographic code-unit comparison. -/
def jsStrLtL : List Char → List Char → Bool
  | [], [] => false
  | [], _ :: _ => true
  | _ :: _, [] => false
  | a :: as, b :: bs =>
    if jsCharLt a b then true
    else if jsCharLt b a then false
    else jsStrLtL as bs

/-- JavaScript `<` on `String` values. -/
def jsStrLt (a b : String) : Bool := jsStrLtL a.toList b.toList

/-- The whitespace characters stripped by JavaScript `String.prototype.trim`
(restricted to the ASCII range, which covers all texts in this development). -/
def isJsSpace (c : Char) : Bool :=
  c == ' ' || c == '\t' || c == '\n' || c == '\r' || c == '\x0b' || c == '\x0c'

/-- JavaScript `String.prototype.trim`. -/
def jsTrim (s : Text) : Text :=
  ((s.dropWhile isJsSpace).reverse.dropWhile isJsSpace).reverse

/-- JavaScript `String.prototype.slice(a, b)` for `0 ≤ a, b` (characters with
index in `[a, b)`). -/
def sliceText (src : Text) (a b : Nat) : Text := (src.take b).drop a

/-- Stable insertion: insert `a` before the first element `b` with `le a b`.
Together with `jsStableSort` this models JavaScript `Array.prototype.sort`,
which is required to be stable; for a consistent comparator the result agrees
with every stable sorting algorithm. -/
def jsOrderedInsert (le : α → α → Bool) (a : α) : List α → List α
  | [] => [a]
  | b :: l => if le a b then a :: b :: l else b :: jsOrderedInsert le a l

/-- Stable insertion sort modelling `Array.prototype.sort(cmp)` with
`le a b := cmp a b ≤ 0`. -/
def jsStableSort (le : α → α → Bool) : List α → List α
  | [] => []
  | a :: l => jsOrderedInsert le a (jsStableSort le l)

/-- The three specifier node types an `ImportDeclaration` can contain. -/
inductive SpecType where
  | importSpecifier
  | importDefaultSpecifier
  | importNamespaceSpecifier
deriving DecidableEq, Inhabited, Repr

/-- A specifier node of an import declaration: its node `type`, its
`local.name` identifier and its character `range` in the source. -/
structure Specifier where
  type : SpecType
  localName : String
  range : Nat × Nat
deriving DecidableEq, Inhabited, Repr

/-- An `ImportDeclaration` node: its `source.value` (the module identifier),
its list of specifier nodes, and its character `range` in the source. -/
structure ImportDecl where
  moduleIdentifier : String
  specifiers : List Specifier
  range : Nat × Nat
deriving DecidableEq, Inhabited, Repr

/-- `getModuleName(node)`: `node.source.value`. -/
def getModuleName (node : ImportDecl) : String := node.moduleIdentifier

/-- `isAbsolute(name)`: `name[0] !== '.'` (for the empty string, `name[0]` is
`undefined`, which differs from `'.'`, so the result is `true`). -/
def isAbsolute (name : String) : Bool :=
  match name.toList with
  | [] => true
  | c :: _ => c != '.'

/-- `isEmptyImport(node)`: `node.specifiers.length === 0`. -/
def isEmptyImport (node : ImportDecl) : Bool := node.specifiers.length == 0

/-- `isImportSpecifier(node)`: `node.type === 'ImportSpecifier'`. -/
def isImportSpecifier (node : Specifier) : Bool :=
  node.type == SpecType.importSpecifier

/-- ASCII lowercasing of one character, modelling
`String.prototype.toLowerCase` on identifier characters. -/
def jsCharToLower (c : Char) : Char :=
  if c.toNat >= 65 && c.toNat <= 90 then Char.ofNat (c.toNat + 32) else c

/-- `String.prototype.toLowerCase`, restricted to ASCII. -/
def jsToLower (s : String) : String := String.mk (s.data.map jsCharToLower)

/-- `getSpecifierName(specifier)`: the specifier's local name, lower-cased
unless `caseSensitive` is on. -/
def getSpecifierName (caseSensitive : Bool) (specifier : Specifier) : String :=
  if caseSensitive then specifier.localName else jsToLower specifier.localName

/-- `isSmallerThanPrevious(name, index, array)` as written in the source: the
function returns `false` on three explicit paths and, on the remaining path,
falls off the end of the function body, returning `undefined` — which
`findIndex` treats as falsy.  That final path is modelled as `false`. -/
def isSmallerThanPrevious (name : String) (index : Nat) (array : List String) : Bool :=
  if index == 0 then false
  else
    let prev := array.getD (index - 1) ""
    let isModuleAbsolute := isAbsolute name
    let isPrevAbsolute := isAbsolute prev
    if isPrevAbsolute && !isModuleAbsolute then false
    else if isModuleAbsolute && !isPrevAbsolute then false
    else false

/-- `Array.prototype.findIndex` with a `(value, index, array)` callback,
returning `none` for JavaScript's `-1`: worker loop. -/
def findIndexWithGo (cb : α → Nat → List α → Bool) (full : List α) (k : Nat) :
    List α → Option Nat
  | [] => none
  | x :: r => if cb x k full then some k else findIndexWithGo cb full (k + 1) r

/-- `Array.prototype.findIndex` with a `(value, index, array)` callback. -/
def findIndexWith (cb : α → Nat → List α → Bool) (l : List α) : Option Nat :=
  findIndexWithGo cb l 0 l

/-- The kinds of violation the rule can report. -/
inductive ViolationKind where
  | UnsortedBinding
  | DuplicateModule
  | EmptyImportOutOfOrder
  | AbsoluteImportOutOfOrder
  | AlphabeticalOutOfOrder
deriving DecidableEq, Inhabited, Repr

/-- The location a report is attached to: the `Program` node for
declaration-order violations, the offending specifier node for binding-order
violations. -/
inductive Loc where
  | program
  | spec (s : Specifier)
deriving DecidableEq, Inhabited, Repr

/-- The rewrite carried by a fixable report, recorded by the reordering it
produces: the fully sorted specifier list (from `fixImportMembers`) or the
target order of the whole import block (from `fixImportDefinitions`). -/
inductive RuleFix where
  | members (sortedSpecifiers : List Specifier)
  | defs (target : List ImportDecl)
deriving DecidableEq, Inhabited, Repr

/-- One report emitted through `context.report`. -/
structure Violation where
  kind : ViolationKind
  node : Loc
  fix : Option RuleFix
deriving DecidableEq, Inhabited, Repr

/-- The comparator passed to `sort` inside `fixImportMembers`:
`aName > bName ? 1 : -1`. -/
def cmpMembers (caseSensitive : Bool) (a b : Specifier) : Int :=
  let aName := getSpecifierName caseSensitive a
  let bName := getSpecifierName caseSensitive b
  if jsStrLt bName aName then 1 else -1

/-- The fully sorted specifier order computed inside `fixImportMembers`. -/
def membersSorted (caseSensitive : Bool) (specifiers : List Specifier) : List Specifier :=
  jsStableSort (fun a b => decide (cmpMembers caseSensitive a b ≤ 0)) specifiers

/-- The comparator passed to `sort` inside `fixImportDefinitions`. -/
def cmpFix (prev current : ImportDecl) : Int :=
  let prevName := getModuleName prev
  let currentName := getModuleName current
  let isPrevEmpty := isEmptyImport prev
  let isCurrentEmpty := isEmptyImport current
  let isPrevAbsolute := isAbsolute prevName
  let isCurrentAbsolute := isAbsolute currentName
  if isPrevEmpty && !isCurrentEmpty || isPrevAbsolute && !isCurrentAbsolute then -1
  else if !isPrevEmpty && isCurrentEmpty || !isPrevAbsolute && isCurrentAbsolute then 1
  else if prevName = currentName then 0
  else if jsStrLt currentName prevName then 1 else -1

/-- The target order of the whole import block computed inside
`fixImportDefinitions`. -/
def fixSorted (imports : List ImportDecl) : List ImportDecl :=
  jsStableSort (fun a b => decide (cmpFix a b ≤ 0)) imports

/-- The per-declaration body of the `sortMembers` pass: filter the named
specifiers, map them to their (possibly lower-cased) names, and report the
first index at which `isSmallerThanPrevious` holds, attaching the
`fixImportMembers` rewrite. -/
def memberCheck (caseSensitive : Bool) (declaration : ImportDecl) : List Violation :=
  let specifiers := declaration.specifiers.filter isImportSpecifier
  match findIndexWith isSmallerThanPrevious (specifiers.map (getSpecifierName caseSensitive)) with
  | some i =>
      [{ kind := ViolationKind.UnsortedBinding,
         node := Loc.spec (specifiers.getD i default),
         fix := some (RuleFix.members (membersSorted caseSensitive specifiers)) }]
  | none => []

/-- The body of the declaration-order `forEach`: the decision sequence run for
one adjacent pair `(prev, current)`; `imports` is the whole block the rewrite
closes over. -/
def checkOrderViolation (imports : List ImportDecl) (prev current : ImportDecl) :
    Option Violation :=
  let prevName := getModuleName prev
  let currentName := getModuleName current
  if prevName = currentName then
    some { kind := ViolationKind.DuplicateModule, node := Loc.program, fix := none }
  else
    let isPrevEmpty := isEmptyImport prev
    let isCurrentEmpty := isEmptyImport current
    let isPrevAbsolute := isAbsolute prevName
    let isCurrentAbsolute := isAbsolute currentName
    if isPrevEmpty && !isCurrentEmpty || isPrevAbsolute && !isCurrentAbsolute then
      none
    else if !isPrevEmpty && isCurrentEmpty then
      some { kind := ViolationKind.EmptyImportOutOfOrder, node := Loc.program,
             fix := some (RuleFix.defs (fixSorted imports)) }
    else if !isPrevAbsolute && isCurrentAbsolute then
      some { kind := ViolationKind.AbsoluteImportOutOfOrder, node := Loc.program,
             fix := some (RuleFix.defs (fixSorted imports)) }
    else if jsStrLt currentName prevName then
      some { kind := ViolationKind.AlphabeticalOutOfOrder, node := Loc.program,
             fix := some (RuleFix.defs (fixSorted imports)) }
    else none

/-- The declaration-order `forEach` over the import list: each element with
index ≥ 1 is checked against its predecessor, in source order. -/
def orderWalk (imports : List ImportDecl) : List ImportDecl → List Violation
  | [] => []
  | [_] => []
  | p :: c :: rest =>
    (match checkOrderViolation imports p c with
     | some v => [v]
     | none => []) ++ orderWalk imports (c :: rest)

/-- The whole analysis pass over one module's import declarations: the
`sortMembers` pass (when enabled) followed by the declaration-order pass. -/
def analyze (sortMembers caseSensitive : Bool) (imports : List ImportDecl) :
    List Violation :=
  (if sortMembers then (imports.map (memberCheck caseSensitive)).flatten else [])
    ++ orderWalk imports imports

/-- The index the `sortMembers` pass computes for one declaration's filtered
named specifiers:
`specifiers.map(getSpecifierName).findIndex(isSmallerThanPrevious)`. -/
def findUnsortedMemberIndex (caseSensitive : Bool) (specifiers : List Specifier) :
    Option Nat :=
  findIndexWith isSmallerThanPrevious (specifiers.map (getSpecifierName caseSensitive))

/-- `source.getText(node)`: the source text inside the node's range.  The
splicer is generic in the node type, as in the source; `rng` extracts a
node's range. -/
def getNodeText (rng : α → Nat × Nat) (src : Text) (node : α) : Text :=
  sliceText src (rng node).1 (rng node).2

/-- `getCodeBetween(nodeA, nodeB)`:
`source.getText().slice(nodeA.range[1], nodeB.range[0])`. -/
def getCodeBetween (rng : α → Nat × Nat) (src : Text) (nodeA nodeB : α) : Text :=
  sliceText src (rng nodeA).2 (rng nodeB).1

/-- The `before` string computed for one node inside `sortNodes`'s reduce:
the original gap before the node if it was not originally first, a synthetic
line break if it was originally first but lands at a non-first target
position, and the empty string otherwise. -/
def spliceBefore [DecidableEq α] [Inhabited α] (rng : α → Nat × Nat) (src : Text)
    (original : List α) (index : Nat) (node : α) : Text :=
  let oldIndex := original.indexOf node
  if oldIndex ≠ 0 then
    getCodeBetween rng src (original.getD (oldIndex - 1) default)
      (original.getD oldIndex default)
  else if index ≠ 0 then ['\n'] else []

/-- The reduce inside `sortNodes`, threading the target index. -/
def sortNodesGo [DecidableEq α] [Inhabited α] (rng : α → Nat × Nat) (src : Text)
    (original : List α) (index : Nat) : List α → Text
  | [] => []
  | n :: rest =>
    spliceBefore rng src original index n ++ getNodeText rng src n
      ++ sortNodesGo rng src original (index + 1) rest

/-- `sortNodes(original, sorted)`: concatenate, in target order, each node's
`before` string and raw text. -/
def sortNodes [DecidableEq α] [Inhabited α] (rng : α → Nat × Nat) (src : Text)
    (original sorted : List α) : Text :=
  sortNodesGo rng src original 0 sorted

/-- `fixer.replaceTextRange([a, b], replacement)` applied to the source. -/
def applyReplace (src : Text) (range : Nat × Nat) (replacement : Text) : Text :=
  src.take range.1 ++ replacement ++ src.drop range.2

/-- `fixImportMembers(specifiers)`: the replaced range (from the first to the
last filtered specifier) and the trimmed splice of the sorted specifiers. -/
def fixImportMembers (caseSensitive : Bool) (src : Text)
    (specifiers : List Specifier) : (Nat × Nat) × Text :=
  (((specifiers.headD default).range.1, (specifiers.getLastD default).range.2),
   jsTrim (sortNodes Specifier.range src specifiers
     (membersSorted caseSensitive specifiers)))

/-- The source text of specification scenario 4. -/
def demo4Src : Text := "import { b, a } from './x';".toList

/-- The import declaration of specification scenario 4, with the character
ranges induced by `demo4Src`. -/
def demo4Decl : ImportDecl :=
  { moduleIdentifier := "./x",
    specifiers :=
      [{ type := SpecType.importSpecifier, localName := "b", range := (9, 10) },
       { type := SpecType.importSpecifier, localName := "a", range := (12, 13) }],
    range := (0, 27) }

/-- The claimed decision sequence for one adjacent pair, written from the
specification's words (section 4.3): duplicate check first, then the
short-circuit, then empty-before, absolute-before, and plain string
comparison. -/
def specPairDecision (prev current : ImportDecl) : Option ViolationKind :=
  if prev.moduleIdentifier = current.moduleIdentifier then
    some ViolationKind.DuplicateModule
  else if isEmptyImport prev && !isEmptyImport current
      || isAbsolute prev.moduleIdentifier && !isAbsolute current.moduleIdentifier then
    none
  else if !isEmptyImport prev && isEmptyImport current then
    some ViolationKind.EmptyImportOutOfOrder
  else if !isAbsolute prev.moduleIdentifier && isAbsolute current.moduleIdentifier then
    some ViolationKind.AbsoluteImportOutOfOrder
  else if jsStrLt current.moduleIdentifier prev.moduleIdentifier then
    some ViolationKind.AlphabeticalOutOfOrder
  else none

/-- The target order written from the spec's words: a stable sort by the
composite key `(not isEmpty, not isAbsolute, moduleIdentifier)` — empty
imports first, then absolute before relative, then ascending module
identifier, duplicates kept in original relative order.  `keyLe a b` holds
when `a`'s key is less than or equal to `b`'s. -/
def keyLe (a b : ImportDecl) : Bool :=
  if isEmptyImport a != isEmptyImport b then isEmptyImport a
  else if isAbsolute (getModuleName a) != isAbsolute (getModuleName b) then
    isAbsolute (getModuleName a)
  else !jsStrLt (getModuleName b) (getModuleName a)

/-- The stable sort by the composite key, per the spec's words. -/
def specTargetOrder (imports : List ImportDecl) : List ImportDecl :=
  jsStableSort keyLe imports

/-- Helper for reasoning about the splice of a contiguous run: each node is
preceded by the gap from its predecessor. -/
def glueFrom (rng : α → Nat × Nat) (src : Text) (prev : α) : List α → Text
  | [] => []
  | n :: ns =>
    getCodeBetween rng src prev n ++ getNodeText rng src n ++ glueFrom rng src n ns

/-- The per-node pieces of the splice output, in target order: each node's
`before` string paired with its raw text. -/
def spliceParts [DecidableEq α] [Inhabited α] (rng : α → Nat × Nat) (src : Text)
    (original : List α) (index : Nat) : List α → List (Text × Text)
  | [] => []
  | n :: rest =>
    (spliceBefore rng src original index n, getNodeText rng src n)
      :: spliceParts rng src original (index + 1) rest

/-- The gaps between consecutive nodes of the original sequence. -/
def consecGaps (rng : α → Nat × Nat) (src : Text) : List α → List Text
  | [] => []
  | [_] => []
  | a :: b :: r => getCodeBetween rng src a b :: consecGaps rng src (b :: r)

/-- The length of the original gap consumed for a node, zero for the
originally-first node. -/
def origGapLen [DecidableEq α] [Inhabited α] (rng : α → Nat × Nat) (src : Text)
    (original : List α) (n : α) : Nat :=
  if original.indexOf n ≠ 0 then
    (getCodeBetween rng src (original.getD (original.indexOf n - 1) default)
      (original.getD (original.indexOf n) default)).length
  else 0

theorem jsCharLt_irrefl (a : Char) : jsCharLt a a = false := by
  simp [jsCharLt]

theorem jsCharLt_asymm {a b : Char} (h : jsCharLt a b = true) : jsCharLt b a = false := by
  simp [jsCharLt] at h ⊢
  omega

theorem jsStrLtL_irrefl : ∀ s : List Char, jsStrLtL s s = false
  | [] => rfl
  | a :: as => by
    simp [jsStrLtL, jsCharLt_irrefl, jsStrLtL_irrefl as]

theorem jsStrLtL_asymm : ∀ {s t : List Char}, jsStrLtL s t = true → jsStrLtL t s = false
  | [], [], h => by simp [jsStrLtL] at h
  | [], _ :: _, _ => by simp [jsStrLtL]
  | _ :: _, [], h => by simp [jsStrLtL] at h
  | a :: as, b :: bs, h => by
    by_cases hab : jsCharLt a b = true
    · simp [jsStrLtL, jsCharLt_asymm hab, hab]
    · by_cases hba : jsCharLt b a = true
      · simp [jsStrLtL, hab, hba] at h
      · simp only [jsStrLtL, hab, hba, if_false, Bool.false_eq_true] at h ⊢
        simpa using jsStrLtL_asymm h

theorem jsStrLt_irrefl (s : String) : jsStrLt s s = false := jsStrLtL_irrefl _

theorem jsStrLt_asymm {s t : String} (h : jsStrLt s t = true) : jsStrLt t s = false :=
  jsStrLtL_asymm h

theorem jsOrderedInsert_perm (le : α → α → Bool) (a : α) :
    ∀ l : List α, (jsOrderedInsert le a l).Perm (a :: l)
  | [] => List.Perm.refl _
  | b :: l => by
    unfold jsOrderedInsert
    by_cases h : le a b = true
    · simp [h]
    · simp only [h, if_neg, Bool.false_eq_true, if_false]
      exact ((jsOrderedInsert_perm le a l).cons b).trans (List.Perm.swap a b l)

theorem jsStableSort_perm (le : α → α → Bool) :
    ∀ l : List α, (jsStableSort le l).Perm l
  | [] => List.Perm.refl _
  | a :: l =>
    (jsOrderedInsert_perm le a (jsStableSort le l)).trans
      ((jsStableSort_perm le l).cons a)

theorem mem_jsOrderedInsert (le : α → α → Bool) (a x : α) (l : List α) :
    x ∈ jsOrderedInsert le a l ↔ x = a ∨ x ∈ l := by
  rw [(jsOrderedInsert_perm le a l).mem_iff, List.mem_cons]

theorem mem_jsStableSort (le : α → α → Bool) (x : α) (l : List α) :
    x ∈ jsStableSort le l ↔ x ∈ l :=
  (jsStableSort_perm le l).mem_iff

theorem chain'_jsOrderedInsert (le : α → α → Bool)
    (total : ∀ a b, le a b = true ∨ le b a = true) (a : α) :
    ∀ l : List α, List.Chain' (fun x y => le x y = true) l →
      List.Chain' (fun x y => le x y = true) (jsOrderedInsert le a l)
  | [], _ => List.chain'_singleton a
  | b :: l, h => by
    unfold jsOrderedInsert
    by_cases hab : le a b = true
    · simpa [hab] using h
    · simp only [hab, Bool.false_eq_true, if_false]
      have hba : le b a = true := (total a b).resolve_left hab
      have htail : List.Chain' (fun x y => le x y = true) (jsOrderedInsert le a l) :=
        chain'_jsOrderedInsert le total a l h.tail
      rw [List.chain'_cons']
      refine ⟨?_, htail⟩
      intro y hy
      cases l with
      | nil =>
        simp [jsOrderedInsert] at hy
        subst hy; exact hba
      | cons c l' =>
        rw [List.chain'_cons] at h
        unfold jsOrderedInsert at hy
        by_cases hac : le a c = true
        · simp [hac] at hy
          subst hy; exact hba
        · simp [hac] at hy
          subst hy; exact h.1

theorem chain'_jsStableSort (le : α → α → Bool)
    (total : ∀ a b, le a b = true ∨ le b a = true) :
    ∀ l : List α, List.Chain' (fun x y => le x y = true) (jsStableSort le l)
  | [] => List.chain'_nil
  | a :: l => chain'_jsOrderedInsert le total a _ (chain'_jsStableSort le total l)

theorem pairwise_jsOrderedInsert (le : α → α → Bool) (Q : α → α → Prop)
    (hQt : Transitive Q) (h1 : ∀ a b, le a b = true → Q a b)
    (h2 : ∀ a b, le a b = false → Q b a) (a : α) :
    ∀ l : List α, l.Pairwise Q → (jsOrderedInsert le a l).Pairwise Q
  | [], _ => by unfold jsOrderedInsert; simp
  | b :: l, h => by
    rw [List.pairwise_cons] at h
    unfold jsOrderedInsert
    by_cases hab : le a b = true
    · simp only [hab, if_true]
      rw [List.pairwise_cons]
      refine ⟨?_, List.pairwise_cons.2 h⟩
      intro x hx
      rcases List.mem_cons.1 hx with rfl | hx
      · exact h1 _ _ hab
      · exact hQt (h1 _ _ hab) (h.1 x hx)
    · simp only [hab, Bool.false_eq_true, if_false]
      rw [List.pairwise_cons]
      refine ⟨?_, pairwise_jsOrderedInsert le Q hQt h1 h2 a l h.2⟩
      intro x hx
      rcases (mem_jsOrderedInsert le a x l).1 hx with rfl | hx
      · exact h2 _ _ (by simpa using hab)
      · exact h.1 x hx

theorem pairwise_jsStableSort (le : α → α → Bool) (Q : α → α → Prop)
    (hQt : Transitive Q) (h1 : ∀ a b, le a b = true → Q a b)
    (h2 : ∀ a b, le a b = false → Q b a) :
    ∀ l : List α, (jsStableSort le l).Pairwise Q
  | [] => List.Pairwise.nil
  | a :: l =>
    pairwise_jsOrderedInsert le Q hQt h1 h2 a _
      (pairwise_jsStableSort le Q hQt h1 h2 l)

theorem jsOrderedInsert_congr (le₁ le₂ : α → α → Bool) (a : α) :
    ∀ l : List α, (∀ b ∈ l, le₁ a b = le₂ a b) →
      jsOrderedInsert le₁ a l = jsOrderedInsert le₂ a l
  | [], _ => rfl
  | b :: l, h => by
    unfold jsOrderedInsert
    rw [h b (List.mem_cons_self b l)]
    by_cases hab : le₂ a b = true
    · simp [hab]
    · simp only [hab, Bool.false_eq_true, if_false]
      rw [jsOrderedInsert_congr le₁ le₂ a l (fun c hc => h c (List.mem_cons_of_mem b hc))]

theorem jsStableSort_congr (le₁ le₂ : α → α → Bool) :
    ∀ l : List α, (∀ a ∈ l, ∀ b ∈ l, le₁ a b = le₂ a b) →
      jsStableSort le₁ l = jsStableSort le₂ l
  | [], _ => rfl
  | a :: l, h => by
    unfold jsStableSort
    have hrec : jsStableSort le₁ l = jsStableSort le₂ l :=
      jsStableSort_congr le₁ le₂ l
        (fun x hx y hy =>
          h x (List.mem_cons_of_mem a hx) y (List.mem_cons_of_mem a hy))
    rw [hrec]
    exact jsOrderedInsert_congr le₁ le₂ a _
      (fun b hb =>
        h a (List.mem_cons_self a l) b
          (List.mem_cons_of_mem a ((mem_jsStableSort le₂ b l).1 hb)))

theorem isSmallerThanPrevious_false (name : String) (index : Nat) (array : List String) :
    isSmallerThanPrevious name index array = false := by
  simp [isSmallerThanPrevious]

theorem findIndexWithGo_none {cb : α → Nat → List α → Bool} {full : List α}
    (hcb : ∀ x k, cb x k full = false) :
    ∀ (k : Nat) (l : List α), findIndexWithGo cb full k l = none
  | _, [] => rfl
  | k, x :: r => by
    unfold findIndexWithGo
    rw [hcb x k]
    simpa using findIndexWithGo_none hcb (k + 1) r

theorem findUnsortedMemberIndex_none (caseSensitive : Bool) (specifiers : List Specifier) :
    findUnsortedMemberIndex caseSensitive specifiers = none :=
  findIndexWithGo_none (fun x k => isSmallerThanPrevious_false x k _) 0 _

/-- C1: the Binding Sorter is claimed to report the index of the first binding
whose sort key is smaller than its predecessor's, and "none" exactly for
sorted bindings.  In the source, `isSmallerThanPrevious` never returns `true`
(its final path falls off the function body), so the computed index is "none"
for every input — including the unsorted pair `b, a`, whose sort keys satisfy
`"a" < "b"`. -/
theorem c1_binding_sorter_dead :
    (∀ (caseSensitive : Bool) (specifiers : List Specifier),
        findUnsortedMemberIndex caseSensitive specifiers = none)
    ∧ findUnsortedMemberIndex false
        [{ type := SpecType.importSpecifier, localName := "b", range := (9, 10) },
         { type := SpecType.importSpecifier, localName := "a", range := (12, 13) }] = none
    ∧ jsStrLt "a" "b" = true :=
  ⟨findUnsortedMemberIndex_none, findUnsortedMemberIndex_none false _, by decide⟩

theorem memberCheck_nil (caseSensitive : Bool) (declaration : ImportDecl) :
    memberCheck caseSensitive declaration = [] := by
  have h := findUnsortedMemberIndex_none caseSensitive
    (declaration.specifiers.filter isImportSpecifier)
  unfold findUnsortedMemberIndex at h
  simp only [memberCheck]
  rw [h]

theorem memberPass_nil (caseSensitive : Bool) :
    ∀ imports : List ImportDecl,
      ((imports.map (memberCheck caseSensitive)).flatten : List Violation) = []
  | [] => rfl
  | d :: rest => by
    simp [memberCheck_nil, memberPass_nil caseSensitive rest]

theorem analyze_eq_orderWalk (sortMembers caseSensitive : Bool)
    (imports : List ImportDecl) :
    analyze sortMembers caseSensitive imports = orderWalk imports imports := by
  unfold analyze
  cases sortMembers <;> simp [memberPass_nil]

/-- C7: the spec's scenario 4 promises one `UnsortedBinding` report on `a`
whose fix rewrites the statement to `import { a, b } from './x';`.  The code
reports nothing on this input (the binding check never fires), and even the
rewrite that `fixImportMembers` would have produced yields a different,
mangled text: the comma separator travels with `a` and a synthetic line break
is inserted before `b`. -/
theorem c7_demo4_diverges :
    analyze true false [demo4Decl] = []
    ∧ (let f := fixImportMembers false demo4Src
         (demo4Decl.specifiers.filter isImportSpecifier)
       applyReplace demo4Src f.1 f.2 = "import \x7b , a\nb \x7d from './x';".toList) := by
  constructor
  · rw [analyze_eq_orderWalk]
    rfl
  · decide

/-- C4: for every adjacent pair the Declaration Order Checker reports at most
one violation (it returns an `Option`), and its kind is chosen by first match
in the claimed fixed sequence — `checkOrderViolation`, as translated from the
source, agrees with the decision sequence written from the claim for every
pair and every surrounding import block. -/
theorem c4_pair_decision (imports : List ImportDecl) (prev current : ImportDecl) :
    (checkOrderViolation imports prev current).map Violation.kind
      = specPairDecision prev current := by
  simp only [checkOrderViolation, specPairDecision, getModuleName]
  by_cases h1 : prev.moduleIdentifier = current.moduleIdentifier
  · simp [h1]
  · simp only [h1, if_false]
    by_cases h2 : (isEmptyImport prev && !isEmptyImport current
        || isAbsolute prev.moduleIdentifier && !isAbsolute current.moduleIdentifier) = true
    · simp [h2]
    · simp only [h2, Bool.false_eq_true, if_false]
      by_cases h3 : (!isEmptyImport prev && isEmptyImport current) = true
      · simp [h3]
      · simp only [h3, Bool.false_eq_true, if_false]
        by_cases h4 : (!isAbsolute prev.moduleIdentifier
            && isAbsolute current.moduleIdentifier) = true
        · simp [h4]
        · simp only [h4, Bool.false_eq_true, if_false]
          by_cases h5 : jsStrLt current.moduleIdentifier prev.moduleIdentifier = true
          · simp [h5]
          · simp [h5]

theorem checkOrderViolation_cases {imports : List ImportDecl}
    {prev current : ImportDecl} {v : Violation}
    (h : checkOrderViolation imports prev current = some v) :
    v.node = Loc.program
    ∧ ((v.kind = ViolationKind.DuplicateModule ∧ v.fix = none)
       ∨ (v.kind ≠ ViolationKind.DuplicateModule
          ∧ v.fix = some (RuleFix.defs (fixSorted imports)))) := by
  simp only [checkOrderViolation, getModuleName] at h
  by_cases h1 : prev.moduleIdentifier = current.moduleIdentifier
  · simp only [h1, if_true] at h
    obtain rfl := Option.some.inj h
    exact ⟨rfl, Or.inl ⟨rfl, rfl⟩⟩
  · simp only [h1, if_false] at h
    by_cases h2 : (isEmptyImport prev && !isEmptyImport current
        || isAbsolute prev.moduleIdentifier && !isAbsolute current.moduleIdentifier) = true
    · simp [h2] at h
    · simp only [h2, Bool.false_eq_true, if_false] at h
      by_cases h3 : (!isEmptyImport prev && isEmptyImport current) = true
      · simp only [h3, if_true] at h
        obtain rfl := Option.some.inj h
        exact ⟨rfl, Or.inr ⟨by simp, rfl⟩⟩
      · simp only [h3, Bool.false_eq_true, if_false] at h
        by_cases h4 : (!isAbsolute prev.moduleIdentifier
            && isAbsolute current.moduleIdentifier) = true
        · simp only [h4, if_true] at h
          obtain rfl := Option.some.inj h
          exact ⟨rfl, Or.inr ⟨by simp, rfl⟩⟩
        · simp only [h4, Bool.false_eq_true, if_false] at h
          by_cases h5 : jsStrLt current.moduleIdentifier prev.moduleIdentifier = true
          · simp only [h5, if_true] at h
            obtain rfl := Option.some.inj h
            exact ⟨rfl, Or.inr ⟨by simp, rfl⟩⟩
          · simp [h5] at h

theorem orderWalk_mem (full : List ImportDecl) :
    ∀ (l : List ImportDecl) (v : Violation), v ∈ orderWalk full l →
      ∃ p c, checkOrderViolation full p c = some v
  | [], v, h => by simp [orderWalk] at h
  | [x], v, h => by simp [orderWalk] at h
  | p :: c :: rest, v, h => by
    unfold orderWalk at h
    rcases List.mem_append.1 h with h1 | h2
    · rcases hc : checkOrderViolation full p c with _ | v'
      · rw [hc] at h1; simp at h1
      · rw [hc] at h1
        simp only [List.mem_singleton] at h1
        exact ⟨p, c, by rw [hc, h1]⟩
    · exact orderWalk_mem full (c :: rest) v h2

theorem analyze_mem {sortMembers caseSensitive : Bool} {imports : List ImportDecl}
    {v : Violation} (h : v ∈ analyze sortMembers caseSensitive imports) :
    ∃ p c, checkOrderViolation imports p c = some v := by
  rw [analyze_eq_orderWalk] at h
  exact orderWalk_mem imports imports v h

/-- C8: a `DuplicateModule` report never carries a rewrite, and every report
of any other kind carries one.  Reports come only from the order pass (the
binding pass never fires), and each branch of `checkOrderViolation` either
produces `DuplicateModule` with `fix := none` or another kind with the
whole-block rewrite attached. -/
theorem c8_fix_presence (sortMembers caseSensitive : Bool)
    (imports : List ImportDecl) (v : Violation)
    (h : v ∈ analyze sortMembers caseSensitive imports) :
    (v.kind = ViolationKind.DuplicateModule → v.fix = none)
    ∧ (v.kind ≠ ViolationKind.DuplicateModule → v.fix ≠ none) := by
  obtain ⟨p, c, hc⟩ := analyze_mem h
  rcases (checkOrderViolation_cases hc).2 with ⟨hk, hf⟩ | ⟨hk, hf⟩
  · exact ⟨fun _ => hf, fun hne => absurd hk hne⟩
  · exact ⟨fun he => absurd he hk, fun _ => by rw [hf]; simp⟩

/-- Witness for C8 at a concrete input: a block importing `./a` twice
produces a `DuplicateModule` report, and the theorem applies to it. -/
theorem c8_fix_presence_witness :
    ({ kind := ViolationKind.DuplicateModule, node := Loc.program, fix := none } : Violation)
        ∈ analyze true false
          [{ moduleIdentifier := "./a", specifiers := [], range := (0, 12) },
           { moduleIdentifier := "./a", specifiers := [], range := (13, 25) }]
    ∧ (({ kind := ViolationKind.DuplicateModule, node := Loc.program,
          fix := none } : Violation).kind = ViolationKind.DuplicateModule →
        ({ kind := ViolationKind.DuplicateModule, node := Loc.program,
           fix := none } : Violation).fix = none) :=
  ⟨by decide,
   (c8_fix_presence true false
      [{ moduleIdentifier := "./a", specifiers := [], range := (0, 12) },
       { moduleIdentifier := "./a", specifiers := [], range := (13, 25) }]
      _ (by decide)).1⟩

theorem orderWalk_nil_chain (full : List ImportDecl) :
    ∀ l : List ImportDecl, orderWalk full l = [] →
      List.Chain' (fun a b => getModuleName a ≠ getModuleName b) l
  | [], _ => List.chain'_nil
  | [x], _ => List.chain'_singleton x
  | p :: c :: rest, h => by
    unfold orderWalk at h
    rcases List.append_eq_nil.mp h with ⟨h1, h2⟩
    rw [List.chain'_cons]
    refine ⟨?_, orderWalk_nil_chain full (c :: rest) h2⟩
    intro hn
    simp only [getModuleName] at hn
    simp [checkOrderViolation, getModuleName, hn] at h1

/-- C3 counterexample: the list `pkg` (non-empty absolute), `./a` (empty
relative), `pkg` (non-empty absolute) is accepted — both adjacent pairs hit
the short-circuit branch — yet `pkg` occurs twice, non-adjacently. -/
theorem c3_counterexample :
    analyze true false
      [{ moduleIdentifier := "pkg",
         specifiers := [{ type := SpecType.importSpecifier, localName := "x",
                          range := (9, 10) }],
         range := (0, 24) },
       { moduleIdentifier := "./a", specifiers := [], range := (25, 38) },
       { moduleIdentifier := "pkg",
         specifiers := [{ type := SpecType.importSpecifier, localName := "y",
                          range := (48, 49) }],
         range := (39, 63) }] = []
    ∧ ¬ (List.map getModuleName
          [({ moduleIdentifier := "pkg",
              specifiers := [{ type := SpecType.importSpecifier, localName := "x",
                               range := (9, 10) }],
              range := (0, 24) } : ImportDecl),
           { moduleIdentifier := "./a", specifiers := [], range := (25, 38) },
           { moduleIdentifier := "pkg",
             specifiers := [{ type := SpecType.importSpecifier, localName := "y",
                              range := (48, 49) }],
             range := (39, 63) }]).Nodup := by
  constructor
  · rw [analyze_eq_orderWalk]; rfl
  · decide

/-- C3 amended: on every accepted (violation-free) statement list, no two
ADJACENT statements share the same module identifier.  (The code checks
duplication only pairwise; the short-circuit branch can accept non-adjacent
duplicates, as the counterexample shows.) -/
theorem c3_adjacent_distinct (sortMembers caseSensitive : Bool)
    (imports : List ImportDecl)
    (h : analyze sortMembers caseSensitive imports = []) :
    List.Chain' (fun a b => getModuleName a ≠ getModuleName b) imports := by
  rw [analyze_eq_orderWalk] at h
  exact orderWalk_nil_chain imports imports h

/-- Witness for the amended C3 at a concrete accepted list. -/
theorem c3_adjacent_distinct_witness :
    analyze true false
      [{ moduleIdentifier := "./a", specifiers := [], range := (0, 13) },
       { moduleIdentifier := "./b", specifiers := [], range := (14, 27) }] = []
    ∧ List.Chain' (fun a b => getModuleName a ≠ getModuleName b)
        [({ moduleIdentifier := "./a", specifiers := [], range := (0, 13) } : ImportDecl),
         { moduleIdentifier := "./b", specifiers := [], range := (14, 27) }] :=
  ⟨by rw [analyze_eq_orderWalk]; rfl,
   c3_adjacent_distinct true false _ (by rw [analyze_eq_orderWalk]; rfl)⟩

theorem decide_cmp_names (na nb : String) :
    decide ((if na = nb then (0 : Int) else if jsStrLt nb na then 1 else -1) ≤ 0)
      = !jsStrLt nb na := by
  by_cases hn : na = nb
  · subst hn
    simp [jsStrLt_irrefl]
  · simp only [hn, if_false]
    by_cases hlt : jsStrLt nb na = true
    · simp [hlt]
    · simp only [Bool.not_eq_true] at hlt
      simp [hlt]

theorem cmpFix_keyLe_agree (a b : ImportDecl)
    (h : ¬(isEmptyImport b = true ∧ isAbsolute (getModuleName b) = false
          ∧ isEmptyImport a = false ∧ isAbsolute (getModuleName a) = true)) :
    decide (cmpFix a b ≤ 0) = keyLe a b := by
  unfold cmpFix keyLe
  simp only [getModuleName] at h ⊢
  cases hE1 : isEmptyImport a <;> cases hE2 : isEmptyImport b <;>
    cases hA1 : isAbsolute a.moduleIdentifier <;>
    cases hA2 : isAbsolute b.moduleIdentifier <;>
    simp_all [decide_cmp_names]

theorem fixSorted_eq_spec (imports : List ImportDecl)
    (hp : ∀ a ∈ imports, ∀ b ∈ imports,
      ¬(isEmptyImport a = true ∧ isAbsolute (getModuleName a) = false
        ∧ isEmptyImport b = false ∧ isAbsolute (getModuleName b) = true)) :
    fixSorted imports = specTargetOrder imports :=
  jsStableSort_congr _ keyLe imports
    (fun x hx y hy => cmpFix_keyLe_agree x y (hp y hy x hx))

theorem specTargetOrder_empties_first (imports : List ImportDecl) :
    (specTargetOrder imports).Pairwise
      (fun x y => isEmptyImport y = true → isEmptyImport x = true) := by
  refine pairwise_jsStableSort keyLe _ ?_ ?_ ?_ imports
  · intro x y z hxy hyz he
    exact hxy (hyz he)
  · intro a b hle he
    by_contra ha
    simp only [Bool.not_eq_true] at ha
    unfold keyLe at hle
    rw [he, ha] at hle
    simp at hle
  · intro a b hle he
    by_contra hb
    simp only [Bool.not_eq_true] at hb
    unfold keyLe at hle
    rw [he, hb] at hle
    simp at hle

/-- C2 counterexample: for the block `pkg` (non-empty absolute) followed by
`./x` (empty relative), the rewrite's target order keeps `pkg` first — the
comparator's absolute/relative clause fires before its empty clause — while
the claimed composite-key sort puts the empty import first. -/
theorem c2_counterexample :
    fixSorted
        [{ moduleIdentifier := "pkg",
           specifiers := [{ type := SpecType.importSpecifier, localName := "x",
                            range := (9, 10) }],
           range := (0, 24) },
         { moduleIdentifier := "./x", specifiers := [], range := (25, 38) }]
      ≠ specTargetOrder
        [{ moduleIdentifier := "pkg",
           specifiers := [{ type := SpecType.importSpecifier, localName := "x",
                            range := (9, 10) }],
           range := (0, 24) },
         { moduleIdentifier := "./x", specifiers := [], range := (25, 38) }]
    ∧ fixSorted
        [{ moduleIdentifier := "pkg",
           specifiers := [{ type := SpecType.importSpecifier, localName := "x",
                            range := (9, 10) }],
           range := (0, 24) },
         { moduleIdentifier := "./x", specifiers := [], range := (25, 38) }]
      = [{ moduleIdentifier := "pkg",
           specifiers := [{ type := SpecType.importSpecifier, localName := "x",
                            range := (9, 10) }],
           range := (0, 24) },
         { moduleIdentifier := "./x", specifiers := [], range := (25, 38) }] := by
  constructor
  · decide
  · decide

/-- C2 amended: the rewrite's target order equals the stable composite-key
sort, and empty imports all precede non-empty ones in it, PROVIDED the block
contains no pair of an empty relative import and a non-empty absolute import
(on such a pair the code's comparator contradicts the composite key: the
counterexample shows the non-empty absolute import is kept first). -/
theorem c2_target_order (imports : List ImportDecl)
    (hp : ∀ a ∈ imports, ∀ b ∈ imports,
      ¬(isEmptyImport a = true ∧ isAbsolute (getModuleName a) = false
        ∧ isEmptyImport b = false ∧ isAbsolute (getModuleName b) = true)) :
    fixSorted imports = specTargetOrder imports
    ∧ (fixSorted imports).Pairwise
        (fun x y => isEmptyImport y = true → isEmptyImport x = true) := by
  have he := fixSorted_eq_spec imports hp
  exact ⟨he, he ▸ specTargetOrder_empties_first imports⟩

/-- Witness for the amended C2 at a concrete all-relative block. -/
theorem c2_target_order_witness :
    (∀ a ∈ [({ moduleIdentifier := "./b",
               specifiers := [{ type := SpecType.importSpecifier, localName := "x",
                                range := (9, 10) }],
               range := (0, 24) } : ImportDecl),
            { moduleIdentifier := "./a", specifiers := [], range := (25, 38) }],
      ∀ b ∈ [({ moduleIdentifier := "./b",
                specifiers := [{ type := SpecType.importSpecifier, localName := "x",
                                 range := (9, 10) }],
                range := (0, 24) } : ImportDecl),
             { moduleIdentifier := "./a", specifiers := [], range := (25, 38) }],
        ¬(isEmptyImport a = true ∧ isAbsolute (getModuleName a) = false
          ∧ isEmptyImport b = false ∧ isAbsolute (getModuleName b) = true))
    ∧ (fixSorted
         [({ moduleIdentifier := "./b",
             specifiers := [{ type := SpecType.importSpecifier, localName := "x",
                              range := (9, 10) }],
             range := (0, 24) } : ImportDecl),
          { moduleIdentifier := "./a", specifiers := [], range := (25, 38) }]
        = specTargetOrder
          [({ moduleIdentifier := "./b",
              specifiers := [{ type := SpecType.importSpecifier, localName := "x",
                               range := (9, 10) }],
              range := (0, 24) } : ImportDecl),
           { moduleIdentifier := "./a", specifiers := [], range := (25, 38) }]) :=
  ⟨by decide, (c2_target_order _ (by decide)).1⟩

theorem bool_or_and_comm (x1 x2 y1 y2 : Bool) :
    (x1 && x2 || y1 && y2) = (x2 && x1 || y2 && y1) := by
  cases x1 <;> cases x2 <;> cases y1 <;> cases y2 <;> rfl

theorem cmpFix_total (a b : ImportDecl) : cmpFix a b ≤ 0 ∨ cmpFix b a ≤ 0 := by
  unfold cmpFix
  simp only [getModuleName]
  by_cases h1 : (isEmptyImport a && !isEmptyImport b
      || isAbsolute a.moduleIdentifier && !isAbsolute b.moduleIdentifier) = true
  · left; simp [h1]
  · by_cases h2 : (!isEmptyImport a && isEmptyImport b
        || !isAbsolute a.moduleIdentifier && isAbsolute b.moduleIdentifier) = true
    · right
      have h1b : (isEmptyImport b && !isEmptyImport a
          || isAbsolute b.moduleIdentifier && !isAbsolute a.moduleIdentifier) = true := by
        rw [bool_or_and_comm]; exact h2
      simp [h1b]
    · simp only [Bool.not_eq_true] at h1 h2
      by_cases hn : a.moduleIdentifier = b.moduleIdentifier
      · left
        cases hE1 : isEmptyImport a <;> cases hE2 : isEmptyImport b <;>
          cases hA1 : isAbsolute a.moduleIdentifier <;>
          cases hA2 : isAbsolute b.moduleIdentifier <;>
          simp_all [hn]
      · by_cases hlt : jsStrLt b.moduleIdentifier a.moduleIdentifier = true
        · right
          have h1b : (isEmptyImport b && !isEmptyImport a
              || isAbsolute b.moduleIdentifier && !isAbsolute a.moduleIdentifier) = false := by
            rw [bool_or_and_comm]; exact h2
          have h2b : (!isEmptyImport b && isEmptyImport a
              || !isAbsolute b.moduleIdentifier && isAbsolute a.moduleIdentifier) = false := by
            rw [bool_or_and_comm]; exact h1
          have hlt2 := jsStrLt_asymm hlt
          simp [h1b, h2b, Ne.symm hn, hlt2]
        · simp only [Bool.not_eq_true] at hlt
          left
          cases hE1 : isEmptyImport a <;> cases hE2 : isEmptyImport b <;>
            cases hA1 : isAbsolute a.moduleIdentifier <;>
            cases hA2 : isAbsolute b.moduleIdentifier <;>
            simp_all [hn, hlt]

theorem checkOrderViolation_none_of_le {imports : List ImportDecl}
    {p c : ImportDecl} (hn : p.moduleIdentifier ≠ c.moduleIdentifier)
    (hle : cmpFix p c ≤ 0) : checkOrderViolation imports p c = none := by
  unfold cmpFix at hle
  unfold checkOrderViolation
  simp only [getModuleName] at hle ⊢
  simp only [hn, if_false]
  by_cases h1 : (isEmptyImport p && !isEmptyImport c
      || isAbsolute p.moduleIdentifier && !isAbsolute c.moduleIdentifier) = true
  · simp [h1]
  · simp only [h1, Bool.false_eq_true, if_false] at hle ⊢
    by_cases h2 : (!isEmptyImport p && isEmptyImport c
        || !isAbsolute p.moduleIdentifier && isAbsolute c.moduleIdentifier) = true
    · rw [if_pos h2] at hle
      omega
    · simp only [h2, Bool.false_eq_true, if_false] at hle
      simp only [hn, if_false] at hle
      have h34 := h2
      simp only [Bool.not_eq_true, Bool.or_eq_false_iff] at h34
      simp only [h34.1, Bool.false_eq_true, if_false, h34.2]
      by_cases hlt : jsStrLt c.moduleIdentifier p.moduleIdentifier = true
      · rw [if_pos hlt] at hle
        omega
      · simp [hlt]

theorem orderWalk_dup_of_chain (full : List ImportDecl) :
    ∀ l : List ImportDecl, List.Chain' (fun p c => cmpFix p c ≤ 0) l →
      ∀ v ∈ orderWalk full l, v.kind = ViolationKind.DuplicateModule
  | [], _, v, hv => by simp [orderWalk] at hv
  | [x], _, v, hv => by simp [orderWalk] at hv
  | p :: c :: rest, hch, v, hv => by
    rw [List.chain'_cons] at hch
    unfold orderWalk at hv
    rcases List.mem_append.1 hv with h1 | h2
    · by_cases hn : p.moduleIdentifier = c.moduleIdentifier
      · have hdup : checkOrderViolation full p c
            = some { kind := ViolationKind.DuplicateModule, node := Loc.program,
                     fix := none } := by
          simp [checkOrderViolation, getModuleName, hn]
        rw [hdup] at h1
        simp only [List.mem_singleton] at h1
        rw [h1]
      · rw [checkOrderViolation_none_of_le hn hch.1] at h1
        simp at h1
    · exact orderWalk_dup_of_chain full (c :: rest) hch.2 v h2

theorem chain'_fixSorted (imports : List ImportDecl) :
    List.Chain' (fun p c => cmpFix p c ≤ 0) (fixSorted imports) := by
  have h := chain'_jsStableSort (fun a b => decide (cmpFix a b ≤ 0))
    (fun a b => by
      rcases cmpFix_total a b with h | h
      · exact Or.inl (decide_eq_true h)
      · exact Or.inr (decide_eq_true h))
    imports
  exact List.Chain'.imp (fun a b hab => of_decide_eq_true hab) h

/-- C9: every violation that carries a rewrite carries the whole-block
reordering, and re-running the analysis on that reordered block produces no
violation of the same kind at the same location.  In fact the reordered block
can only produce `DuplicateModule` reports, and a fix-carrying violation is
never of that kind.  (The rewrite is modelled at the statement-list level:
its replacement text is the splice of the target order, so re-parsing yields
exactly that statement order, matching the spec's list-level entry point.) -/
theorem c9_fix_idempotent (sortMembers caseSensitive : Bool)
    (imports : List ImportDecl) (v : Violation)
    (hv : v ∈ analyze sortMembers caseSensitive imports)
    (hf : v.fix.isSome = true) :
    ∃ target, v.fix = some (RuleFix.defs target)
      ∧ ∀ w ∈ analyze sortMembers caseSensitive target,
          ¬(w.kind = v.kind ∧ w.node = v.node) := by
  obtain ⟨p, c, hc⟩ := analyze_mem hv
  rcases (checkOrderViolation_cases hc).2 with ⟨hk, hfix⟩ | ⟨hk, hfix⟩
  · rw [hfix] at hf
    simp at hf
  · refine ⟨fixSorted imports, hfix, ?_⟩
    intro w hw hkw
    rw [analyze_eq_orderWalk] at hw
    have hwdup := orderWalk_dup_of_chain (fixSorted imports) (fixSorted imports)
      (chain'_fixSorted imports) w hw
    rw [hkw.1] at hwdup
    exact hk hwdup

/-- Witness for C9: the block `./b`, `./a` produces an
`AlphabeticalOutOfOrder` report carrying the reordering `./a`, `./b`, and the
theorem applies to it. -/

theorem c9_fix_idempotent_witness :
    ({ kind := ViolationKind.AlphabeticalOutOfOrder, node := Loc.program,
       fix := some (RuleFix.defs
         [{ moduleIdentifier := "./a", specifiers := [], range := (14, 27) },
          { moduleIdentifier := "./b", specifiers := [], range := (0, 13) }]) } : Violation)
        ∈ analyze true false
          [{ moduleIdentifier := "./b", specifiers := [], range := (0, 13) },
           { moduleIdentifier := "./a", specifiers := [], range := (14, 27) }]
    ∧ ∃ target,
        ({ kind := ViolationKind.AlphabeticalOutOfOrder, node := Loc.program,
           fix := some (RuleFix.defs
             [{ moduleIdentifier := "./a", specifiers := [], range := (14, 27) },
              { moduleIdentifier := "./b", specifiers := [], range := (0, 13) }]) } :
          Violation).fix = some (RuleFix.defs target)
        ∧ ∀ w ∈ analyze true false target,
            ¬(w.kind = ViolationKind.AlphabeticalOutOfOrder ∧ w.node = Loc.program) :=
  ⟨by decide,
   c9_fix_idempotent true false
     [{ moduleIdentifier := "./b", specifiers := [], range := (0, 13) },
      { moduleIdentifier := "./a", specifiers := [], range := (14, 27) }]
     _ (by decide) (by decide)⟩

theorem indexOf_of_get? [DecidableEq α] :
    ∀ (l : List α), l.Nodup → ∀ (i : Nat) (c : α), l.get? i = some c →
      l.indexOf c = i
  | [], _, i, c, h => by simp at h
  | a :: l, hnd, 0, c, h => by
    simp only [List.get?_cons_zero, Option.some.injEq] at h
    subst h
    exact List.indexOf_cons_self a l
  | a :: l, hnd, i + 1, c, h => by
    simp only [List.get?_cons_succ] at h
    have hmem : c ∈ l := List.get?_mem h
    have hne : a ≠ c := by
      intro he
      exact (List.nodup_cons.mp hnd).1 (he ▸ hmem)
    rw [List.indexOf_cons_ne l hne,
      indexOf_of_get? l (List.nodup_cons.mp hnd).2 i c h]

theorem sortNodesGo_suffix [DecidableEq α] [Inhabited α] (rng : α → Nat × Nat)
    (src : Text) (full : List α) (hnd : full.Nodup) :
    ∀ (rest pre : List α) (prev : α) (k : Nat),
      full = pre ++ prev :: rest →
      sortNodesGo rng src full k rest = glueFrom rng src prev rest
  | [], _, _, _, _ => rfl
  | n :: ns, pre, prev, k, he => by
    have hp : full.get? pre.length = some prev := by
      rw [he, List.get?_append_right (Nat.le_refl _)]
      simp
    have hn2 : full.get? (pre.length + 1) = some n := by
      rw [he, List.get?_append_right (Nat.le_succ _)]
      simp
    have hidx : full.indexOf n = pre.length + 1 :=
      indexOf_of_get? full hnd _ n hn2
    show spliceBefore rng src full k n ++ getNodeText rng src n
        ++ sortNodesGo rng src full (k + 1) ns
      = getCodeBetween rng src prev n ++ getNodeText rng src n ++ glueFrom rng src n ns
    have hbefore : spliceBefore rng src full k n = getCodeBetween rng src prev n := by
      unfold spliceBefore
      rw [hidx]
      simp only [Nat.succ_ne_zero, ne_eq, not_false_eq_true, if_true,
        Nat.add_sub_cancel]
      rw [List.getD_eq_get? full pre.length, List.getD_eq_get? full (pre.length + 1),
        hp, hn2]
      rfl
    rw [hbefore,
      sortNodesGo_suffix rng src full hnd ns (pre ++ [prev]) n (k + 1)
        (by rw [he]; simp)]

theorem sortNodes_identity [DecidableEq α] [Inhabited α] (rng : α → Nat × Nat)
    (src : Text) (a : α) (rest : List α) (hnd : (a :: rest).Nodup) :
    sortNodes rng src (a :: rest) (a :: rest)
      = getNodeText rng src a ++ glueFrom rng src a rest := by
  show spliceBefore rng src (a :: rest) 0 a ++ getNodeText rng src a
      ++ sortNodesGo rng src (a :: rest) 1 rest
    = getNodeText rng src a ++ glueFrom rng src a rest
  have hb : spliceBefore rng src (a :: rest) 0 a = [] := by
    unfold spliceBefore
    rw [List.indexOf_cons_self a rest]
    simp
  rw [hb,
    sortNodesGo_suffix rng src (a :: rest) hnd rest [] a 1 rfl,
    List.nil_append]

theorem sliceText_append (src : Text) {a b c : Nat} (hab : a ≤ b) (hbc : b ≤ c)
    (hc : c ≤ src.length) :
    sliceText src a b ++ sliceText src b c = sliceText src a c := by
  unfold sliceText
  have h1 : (src.take c).take b = src.take b := by
    rw [List.take_take, min_eq_left hbc]
  have h2 : (src.take b).length = b := by
    rw [List.length_take]
    omega
  conv_rhs => rw [← List.take_append_drop b (src.take c), h1]
  rw [List.drop_append_of_le_length (by omega)]

theorem start_le_lastD_end (rng : α → Nat × Nat) :
    ∀ (rest : List α) (a : α),
      List.Chain' (fun x y => (rng x).2 ≤ (rng y).1) (a :: rest) →
      (∀ n ∈ a :: rest, (rng n).1 ≤ (rng n).2) →
      (rng a).1 ≤ (rng (rest.getLastD a)).2
  | [], a, _, hb => hb a (List.mem_cons_self a [])
  | n :: ns, a, hch, hb => by
    rw [List.getLastD_cons]
    have h1 : (rng a).1 ≤ (rng a).2 := hb a (List.mem_cons_self a _)
    have h2 : (rng a).2 ≤ (rng n).1 := (List.chain'_cons.mp hch).1
    have h3 : (rng n).1 ≤ (rng (ns.getLastD n)).2 :=
      start_le_lastD_end rng ns n (List.chain'_cons.mp hch).2
        (fun m hm => hb m (List.mem_cons_of_mem a hm))
    omega

theorem glueFrom_slice (rng : α → Nat × Nat) (src : Text) :
    ∀ (rest : List α) (a : α),
      List.Chain' (fun x y => (rng x).2 ≤ (rng y).1) (a :: rest) →
      (∀ n ∈ a :: rest, (rng n).1 ≤ (rng n).2) →
      (rng (rest.getLastD a)).2 ≤ src.length →
      getNodeText rng src a ++ glueFrom rng src a rest
        = sliceText src (rng a).1 (rng (rest.getLastD a)).2
  | [], a, _, _, _ => by
    unfold glueFrom getNodeText
    simp [List.getLastD]
  | n :: ns, a, hch, hb, hlen => by
    rw [List.getLastD_cons] at hlen ⊢
    have hch' := List.chain'_cons.mp hch
    have hb' : ∀ m ∈ n :: ns, (rng m).1 ≤ (rng m).2 :=
      fun m hm => hb m (List.mem_cons_of_mem a hm)
    have hIH : getNodeText rng src n ++ glueFrom rng src n ns
        = sliceText src (rng n).1 (rng (ns.getLastD n)).2 :=
      glueFrom_slice rng src ns n hch'.2 hb' hlen
    have ha12 : (rng a).1 ≤ (rng a).2 := hb a (List.mem_cons_self a _)
    have ha2n1 : (rng a).2 ≤ (rng n).1 := hch'.1
    have hn1L : (rng n).1 ≤ (rng (ns.getLastD n)).2 :=
      start_le_lastD_end rng ns n hch'.2 hb'
    show getNodeText rng src a
        ++ (getCodeBetween rng src a n ++ getNodeText rng src n ++ glueFrom rng src n ns)
      = sliceText src (rng a).1 (rng (ns.getLastD n)).2
    rw [List.append_assoc (getCodeBetween rng src a n), hIH]
    unfold getNodeText getCodeBetween
    rw [← List.append_assoc,
      sliceText_append src ha12 ha2n1 (by omega),
      sliceText_append src (by omega) hn1L hlen]

/-- C5: splicing with the identity permutation reproduces, after trimming,
exactly the trimmed source text of the span from the first node's start to
the last node's end, for any inter-node text.  Hypotheses: the nodes are
pairwise distinct, in source order without overlap, and within bounds. -/
theorem c5_identity_splice [DecidableEq α] [Inhabited α] (rng : α → Nat × Nat)
    (src : Text) (a : α) (rest : List α) (hnd : (a :: rest).Nodup)
    (hch : List.Chain' (fun x y => (rng x).2 ≤ (rng y).1) (a :: rest))
    (hb : ∀ n ∈ a :: rest, (rng n).1 ≤ (rng n).2)
    (hlen : (rng (rest.getLastD a)).2 ≤ src.length) :
    jsTrim (sortNodes rng src (a :: rest) (a :: rest))
      = jsTrim (sliceText src (rng a).1 (rng (rest.getLastD a)).2) := by
  rw [sortNodes_identity rng src a rest hnd,
    glueFrom_slice rng src rest a hch hb hlen]

/-- Witness for C5: two import statements separated by a comment line. -/
theorem c5_identity_splice_witness :
    (let src : Text := "import './a';\n// note\nimport './b';\n".toList
     let l : List ImportDecl :=
       [{ moduleIdentifier := "./a", specifiers := [], range := (0, 13) },
        { moduleIdentifier := "./b", specifiers := [], range := (23, 36) }]
     jsTrim (sortNodes ImportDecl.range src l l)
       = jsTrim (sliceText src 0 36)) := by
  have h := c5_identity_splice ImportDecl.range
    "import './a';\n// note\nimport './b';\n".toList
    { moduleIdentifier := "./a", specifiers := [], range := (0, 13) }
    [{ moduleIdentifier := "./b", specifiers := [], range := (23, 36) }]
    (by decide)
    (by rw [List.chain'_cons]; exact ⟨by decide, List.chain'_singleton _⟩)
    (by decide) (by decide)
  exact h

theorem sortNodesGo_eq_parts [DecidableEq α] [Inhabited α] (rng : α → Nat × Nat)
    (src : Text) (original : List α) :
    ∀ (ts : List α) (k : Nat),
      sortNodesGo rng src original k ts
        = ((spliceParts rng src original k ts).map fun p => p.1 ++ p.2).flatten
  | [], _ => rfl
  | n :: rest, k => by
    show spliceBefore rng src original k n ++ getNodeText rng src n
        ++ sortNodesGo rng src original (k + 1) rest = _
    rw [sortNodesGo_eq_parts rng src original rest (k + 1)]
    simp [spliceParts, List.append_assoc]

theorem spliceParts_map_snd [DecidableEq α] [Inhabited α] (rng : α → Nat × Nat)
    (src : Text) (original : List α) :
    ∀ (ts : List α) (k : Nat),
      (spliceParts rng src original k ts).map Prod.snd
        = ts.map (getNodeText rng src)
  | [], _ => rfl
  | n :: rest, k => by
    show getNodeText rng src n :: (spliceParts rng src original (k + 1) rest).map Prod.snd
      = getNodeText rng src n :: rest.map (getNodeText rng src)
    rw [spliceParts_map_snd rng src original rest (k + 1)]

theorem spliceBefore_length_pos [DecidableEq α] [Inhabited α] (rng : α → Nat × Nat)
    (src : Text) (original : List α) (n : α) (k : Nat) (hk : k ≠ 0) :
    (spliceBefore rng src original k n).length
      = origGapLen rng src original n
        + (if original.indexOf n = 0 then 1 else 0) := by
  unfold spliceBefore origGapLen
  by_cases h : original.indexOf n = 0
  · simp [h, hk]
  · simp [h]

theorem spliceBefore_length_zero [DecidableEq α] [Inhabited α] (rng : α → Nat × Nat)
    (src : Text) (original : List α) (n : α) :
    (spliceBefore rng src original 0 n).length = origGapLen rng src original n := by
  unfold spliceBefore origGapLen
  by_cases h : original.indexOf n = 0
  · simp [h]
  · simp [h]

theorem sortNodesGo_length [DecidableEq α] [Inhabited α] (rng : α → Nat × Nat)
    (src : Text) (original : List α) :
    ∀ (ts : List α) (k : Nat), k ≠ 0 →
      (sortNodesGo rng src original k ts).length
        = (ts.map fun n => origGapLen rng src original n
            + (if original.indexOf n = 0 then 1 else 0)
            + (getNodeText rng src n).length).sum
  | [], _, _ => rfl
  | n :: rest, k, hk => by
    show (spliceBefore rng src original k n ++ getNodeText rng src n
        ++ sortNodesGo rng src original (k + 1) rest).length = _
    rw [List.length_append, List.length_append,
      spliceBefore_length_pos rng src original n k hk,
      sortNodesGo_length rng src original rest (k + 1) (Nat.succ_ne_zero k)]
    simp [List.map_cons, List.sum_cons]

theorem sum_map_add (f g : α → Nat) :
    ∀ l : List α, (l.map fun x => f x + g x).sum = (l.map f).sum + (l.map g).sum
  | [] => rfl
  | x :: l => by
    simp only [List.map_cons, List.sum_cons, sum_map_add f g l]
    omega

theorem sum_ind_not_mem [DecidableEq α] {o : α} :
    ∀ {l : List α}, o ∉ l → (l.map fun n => if n = o then 1 else 0).sum = 0
  | [], _ => rfl
  | x :: l, h => by
    have hx : x ≠ o := fun he => h (he ▸ List.mem_cons_self x l)
    simp only [List.map_cons, List.sum_cons, hx, if_false,
      sum_ind_not_mem (fun hm => h (List.mem_cons_of_mem x hm))]

theorem sum_ind_nodup_mem [DecidableEq α] {o : α} :
    ∀ {l : List α}, l.Nodup → o ∈ l →
      (l.map fun n => if n = o then 1 else 0).sum = 1
  | x :: l, hnd, hm => by
    by_cases hx : x = o
    · have hnl : o ∉ l := hx ▸ (List.nodup_cons.mp hnd).1
      simp [hx, sum_ind_not_mem hnl]
    · have hol : o ∈ l := by
        rcases List.mem_cons.mp hm with he | hol
        · exact absurd he.symm hx
        · exact hol
      simp only [List.map_cons, List.sum_cons, hx, if_false,
        sum_ind_nodup_mem (List.nodup_cons.mp hnd).2 hol]

theorem map_origGapLen_suffix [DecidableEq α] [Inhabited α] (rng : α → Nat × Nat)
    (src : Text) (full : List α) (hnd : full.Nodup) :
    ∀ (rest pre : List α) (prev : α),
      full = pre ++ prev :: rest →
      rest.map (origGapLen rng src full)
        = (consecGaps rng src (prev :: rest)).map List.length
  | [], _, _, _ => rfl
  | n :: ns, pre, prev, he => by
    have hp : full.get? pre.length = some prev := by
      rw [he, List.get?_append_right (Nat.le_refl _)]
      simp
    have hn2 : full.get? (pre.length + 1) = some n := by
      rw [he, List.get?_append_right (Nat.le_succ _)]
      simp
    have hidx : full.indexOf n = pre.length + 1 :=
      indexOf_of_get? full hnd _ n hn2
    show origGapLen rng src full n :: ns.map (origGapLen rng src full)
      = (getCodeBetween rng src prev n).length
          :: (consecGaps rng src (n :: ns)).map List.length
    have hhead : origGapLen rng src full n = (getCodeBetween rng src prev n).length := by
      unfold origGapLen
      rw [hidx]
      simp only [Nat.succ_ne_zero, ne_eq, not_false_eq_true, if_true,
        Nat.add_sub_cancel]
      rw [List.getD_eq_get? full pre.length, List.getD_eq_get? full (pre.length + 1),
        hp, hn2]
      rfl
    rw [hhead,
      map_origGapLen_suffix rng src full hnd ns (pre ++ [prev]) n (by rw [he]; simp)]

theorem indexOf_cons_zero_iff [DecidableEq α] (o : α) (os : List α) (n : α) :
    (o :: os).indexOf n = 0 ↔ n = o := by
  by_cases hn : n = o
  · subst hn
    simp [List.indexOf_cons_self]
  · rw [List.indexOf_cons_ne os (fun he => hn he.symm)]
    simp [hn]

theorem sum_map_add3 (f g h : α → Nat) :
    ∀ l : List α,
      (l.map fun x => f x + g x + h x).sum
        = (l.map f).sum + (l.map g).sum + (l.map h).sum
  | [] => rfl
  | x :: l => by
    simp only [List.map_cons, List.sum_cons, sum_map_add3 f g h l]
    omega

/-- C6: for every permutation target, the splice output is the concatenation,
in target order, of one `before`-gap piece and one raw node text per node (so
the multiset of raw node texts is preserved), and its length is the sum of
all raw text lengths plus the lengths of exactly the consumed gaps: one
original gap per node not originally first, plus one synthetic line break
exactly when the originally-first node lands in a non-first target slot. -/
theorem c6_no_dup_loss [DecidableEq α] [Inhabited α] (rng : α → Nat × Nat)
    (src : Text) (o : α) (os tgt : List α)
    (hperm : tgt.Perm (o :: os)) (hnd : (o :: os).Nodup) :
    sortNodes rng src (o :: os) tgt
        = ((spliceParts rng src (o :: os) 0 tgt).map fun p => p.1 ++ p.2).flatten
    ∧ (spliceParts rng src (o :: os) 0 tgt).map Prod.snd
        = tgt.map (getNodeText rng src)
    ∧ (tgt.map (getNodeText rng src)).Perm ((o :: os).map (getNodeText rng src))
    ∧ (sortNodes rng src (o :: os) tgt).length
        = ((o :: os).map fun n => (getNodeText rng src n).length).sum
          + ((consecGaps rng src (o :: os)).map List.length).sum
          + (if tgt.indexOf o ≠ 0 then 1 else 0) := by
  refine ⟨sortNodesGo_eq_parts rng src (o :: os) tgt 0,
          spliceParts_map_snd rng src (o :: os) tgt 0,
          hperm.map (getNodeText rng src), ?_⟩
  rcases tgt with _ | ⟨t0, ts⟩
  · exact absurd (hperm.mem_iff.mpr (List.mem_cons_self o os)) (List.not_mem_nil o)
  · have hndt : (t0 :: ts).Nodup := (hperm.nodup_iff).mpr hnd
    have hlen1 : (sortNodes rng src (o :: os) (t0 :: ts)).length
        = origGapLen rng src (o :: os) t0 + (getNodeText rng src t0).length
          + (ts.map fun n => origGapLen rng src (o :: os) n
              + (if (o :: os).indexOf n = 0 then 1 else 0)
              + (getNodeText rng src n).length).sum := by
      unfold sortNodes
      rw [show sortNodesGo rng src (o :: os) 0 (t0 :: ts)
          = spliceBefore rng src (o :: os) 0 t0 ++ getNodeText rng src t0
            ++ sortNodesGo rng src (o :: os) 1 ts from rfl]
      rw [List.length_append, List.length_append, spliceBefore_length_zero,
        sortNodesGo_length rng src (o :: os) ts 1 one_ne_zero]
    have hsplit : (ts.map fun n => origGapLen rng src (o :: os) n
          + (if (o :: os).indexOf n = 0 then 1 else 0)
          + (getNodeText rng src n).length).sum
        = (ts.map fun n => origGapLen rng src (o :: os) n).sum
          + (ts.map fun n => if (o :: os).indexOf n = 0 then 1 else 0).sum
          + (ts.map fun n => (getNodeText rng src n).length).sum :=
      sum_map_add3 _ _ _ ts
    have hgperm : origGapLen rng src (o :: os) t0
        + (ts.map fun n => origGapLen rng src (o :: os) n).sum
        = origGapLen rng src (o :: os) o
          + (os.map fun n => origGapLen rng src (o :: os) n).sum := by
      have h := (hperm.map fun n => origGapLen rng src (o :: os) n).sum_eq
      simpa using h
    have hgapo : origGapLen rng src (o :: os) o = 0 := by
      unfold origGapLen
      rw [List.indexOf_cons_self]
      simp
    have hgaps : (os.map fun n => origGapLen rng src (o :: os) n).sum
        = ((consecGaps rng src (o :: os)).map List.length).sum := by
      have hs := map_origGapLen_suffix rng src (o :: os) hnd os [] o rfl
      rw [show (os.map fun n => origGapLen rng src (o :: os) n)
          = os.map (origGapLen rng src (o :: os)) from rfl, hs]
    have htperm : (getNodeText rng src t0).length
        + (ts.map fun n => (getNodeText rng src n).length).sum
        = (getNodeText rng src o).length
          + (os.map fun n => (getNodeText rng src n).length).sum := by
      have h := (hperm.map fun n => (getNodeText rng src n).length).sum_eq
      simpa using h
    have hindsum : (ts.map fun n => if (o :: os).indexOf n = 0 then (1 : Nat) else 0).sum
        = if (t0 :: ts).indexOf o ≠ 0 then 1 else 0 := by
      have hmapc : (ts.map fun n => if (o :: os).indexOf n = 0 then (1 : Nat) else 0)
          = ts.map fun n => if n = o then (1 : Nat) else 0 := by
        apply List.map_congr_left
        intro n _
        by_cases hn : n = o
        · simp [hn, List.indexOf_cons_self]
        · rw [if_neg (fun h0 => hn ((indexOf_cons_zero_iff o os n).mp h0)), if_neg hn]
      rw [hmapc]
      by_cases h0 : t0 = o
      · have hno : o ∉ ts := h0 ▸ (List.nodup_cons.mp hndt).1
        have hz : (t0 :: ts).indexOf o = 0 := (indexOf_cons_zero_iff t0 ts o).mpr h0.symm
        rw [sum_ind_not_mem hno, hz]
        simp
      · have hot : o ∈ ts := by
          rcases List.mem_cons.mp (hperm.mem_iff.mpr (List.mem_cons_self o os)) with he | h
          · exact absurd he.symm h0
          · exact h
        have hnz : (t0 :: ts).indexOf o ≠ 0 := fun hz =>
          h0 (((indexOf_cons_zero_iff t0 ts o).mp hz).symm)
        rw [sum_ind_nodup_mem (List.nodup_cons.mp hndt).2 hot, if_pos hnz]
    rw [hlen1, hsplit, hindsum]
    simp only [List.map_cons, List.sum_cons]
    omega

/-- Witness for C6: swapping two import statements separated by a comment. -/
theorem c6_no_dup_loss_witness :
    (let src : Text := "import './b';\n// note\nimport './a';\n".toList
     let nb : ImportDecl := { moduleIdentifier := "./b", specifiers := [], range := (0, 13) }
     let na : ImportDecl := { moduleIdentifier := "./a", specifiers := [], range := (23, 36) }
     ([na, nb].map (getNodeText ImportDecl.range src)).Perm
       ([nb, na].map (getNodeText ImportDecl.range src))
     ∧ (sortNodes ImportDecl.range src [nb, na] [na, nb]).length
         = (([nb, na].map fun n => (getNodeText ImportDecl.range src n).length).sum
            + ((consecGaps ImportDecl.range src [nb, na]).map List.length).sum
            + (if [na, nb].indexOf nb ≠ 0 then 1 else 0))) := by
  have h := c6_no_dup_loss ImportDecl.range
    "import './b';\n// note\nimport './a';\n".toList
    { moduleIdentifier := "./b", specifiers := [], range := (0, 13) }
    [{ moduleIdentifier := "./a", specifiers := [], range := (23, 36) }]
    [{ moduleIdentifier := "./a", specifiers := [], range := (23, 36) },
     { moduleIdentifier := "./b", specifiers := [], range := (0, 13) }]
    (by decide) (by decide)
  exact ⟨h.2.2.1, h.2.2.2⟩

theorem applyReplace_take (src : Text) (a b : Nat) (repl : Text)
    (ha : a ≤ src.length) :
    (applyReplace src (a, b) repl).take a = src.take a := by
  unfold applyReplace
  have hl : (src.take a).length = a := by
    rw [List.length_take]
    omega
  rw [List.append_assoc, List.take_append_of_le_length (by rw [hl]),
    List.take_take, min_self]

theorem applyReplace_drop (src : Text) (a b : Nat) (repl : Text)
    (ha : a ≤ src.length) :
    (applyReplace src (a, b) repl).drop (a + repl.length) = src.drop b := by
  unfold applyReplace
  have hl : (src.take a ++ repl).length = a + repl.length := by
    rw [List.length_append, List.length_take]
    omega
  rw [← hl, List.drop_left]

theorem fixImportMembers_range (caseSensitive : Bool) (src : Text)
    (s0 : Specifier) (rest : List Specifier) :
    (fixImportMembers caseSensitive src (s0 :: rest)).1
      = (s0.range.1, (rest.getLastD s0).range.2) := by
  unfold fixImportMembers
  rw [List.getLastD_cons]
  rfl

/-- C10: the binding-order check reads only the `ImportSpecifier` entries of a
declaration (default and namespace specifiers are invisible to it), and the
`fixImportMembers` rewrite replaces exactly the span from the start of the
first `ImportSpecifier` to the end of the last one: the text before that span
(including a leading default import) and the text after it are unchanged in
the rewritten source. -/
theorem c10_member_fix_frame :
    (∀ (caseSensitive : Bool) (d₁ d₂ : ImportDecl),
        d₁.specifiers.filter isImportSpecifier
            = d₂.specifiers.filter isImportSpecifier →
        memberCheck caseSensitive d₁ = memberCheck caseSensitive d₂)
    ∧ (∀ (caseSensitive : Bool) (src : Text) (declaration : ImportDecl)
         (s0 : Specifier) (rest : List Specifier),
        declaration.specifiers.filter isImportSpecifier = s0 :: rest →
        s0.range.1 ≤ src.length →
        (fixImportMembers caseSensitive src
            (declaration.specifiers.filter isImportSpecifier)).1
            = (s0.range.1, (rest.getLastD s0).range.2)
          ∧ (applyReplace src (s0.range.1, (rest.getLastD s0).range.2)
               (fixImportMembers caseSensitive src
                 (declaration.specifiers.filter isImportSpecifier)).2).take s0.range.1
              = src.take s0.range.1
          ∧ (applyReplace src (s0.range.1, (rest.getLastD s0).range.2)
               (fixImportMembers caseSensitive src
                 (declaration.specifiers.filter isImportSpecifier)).2).drop
                (s0.range.1
                  + (fixImportMembers caseSensitive src
                      (declaration.specifiers.filter isImportSpecifier)).2.length)
              = src.drop (rest.getLastD s0).range.2) := by
  constructor
  · intro cs d1 d2 hf
    simp only [memberCheck, hf]
  · intro cs src declaration s0 rest hf hb
    rw [hf]
    exact ⟨fixImportMembers_range cs src s0 rest,
           applyReplace_take src _ _ _ hb,
           applyReplace_drop src _ _ _ hb⟩

/-- Witness for C10 on `import d, { b, a } from './x';`: the check ignores
the default specifier `d`, and the rewrite's span is exactly the `b, a`
region. -/
theorem c10_member_fix_frame_witness :
    (({ moduleIdentifier := "./x",
        specifiers :=
          [{ type := SpecType.importDefaultSpecifier, localName := "d", range := (7, 8) },
           { type := SpecType.importSpecifier, localName := "b", range := (12, 13) },
           { type := SpecType.importSpecifier, localName := "a", range := (15, 16) }],
        range := (0, 30) } : ImportDecl).specifiers.filter isImportSpecifier
      = [{ type := SpecType.importSpecifier, localName := "b", range := (12, 13) },
         { type := SpecType.importSpecifier, localName := "a", range := (15, 16) }])
    ∧ memberCheck false
        { moduleIdentifier := "./x",
          specifiers :=
            [{ type := SpecType.importDefaultSpecifier, localName := "d", range := (7, 8) },
             { type := SpecType.importSpecifier, localName := "b", range := (12, 13) },
             { type := SpecType.importSpecifier, localName := "a", range := (15, 16) }],
          range := (0, 30) }
      = memberCheck false
          { moduleIdentifier := "./x",
            specifiers :=
              [{ type := SpecType.importSpecifier, localName := "b", range := (12, 13) },
               { type := SpecType.importSpecifier, localName := "a", range := (15, 16) }],
            range := (0, 30) }
    ∧ (fixImportMembers false "import d, { b, a } from './x';".toList
        (({ moduleIdentifier := "./x",
            specifiers :=
              [{ type := SpecType.importDefaultSpecifier, localName := "d", range := (7, 8) },
               { type := SpecType.importSpecifier, localName := "b", range := (12, 13) },
               { type := SpecType.importSpecifier, localName := "a", range := (15, 16) }],
            range := (0, 30) } : ImportDecl).specifiers.filter isImportSpecifier)).1
      = (12, 16) :=
  ⟨by decide,
   c10_member_fix_frame.1 false _ _ (by decide),
   (c10_member_fix_frame.2 false "import d, { b, a } from './x';".toList
      { moduleIdentifier := "./x",
        specifiers :=
          [{ type := SpecType.importDefaultSpecifier, localName := "d", range := (7, 8) },
           { type := SpecType.importSpecifier, localName := "b", range := (12, 13) },
           { type := SpecType.importSpecifier, localName := "a", range := (15, 16) }],
        range := (0, 30) }
      { type := SpecType.importSpecifier, localName := "b", range := (12, 13) }
      [{ type := SpecType.importSpecifier, localName := "a", range := (15, 16) }]
      (by decide) (by decide)).1⟩
